import Mathlib

/-!
Verification of the eink_clock repository (src/clock.py, src/cal_clock.py).

The Python program renders a clock face or a four-month calendar onto an RGB
canvas and presents it either on a two-color e-ink panel or as an on-screen
preview.  This file gives a shallow embedding of the pure computational
content of that program and proves the specification claims about it:

* Gregorian/ISO-8601 calendar arithmetic backing the function iso_week_num
  (the Python code delegates to the datetime/arrow ISO week computation, so
  the embedding reproduces that algorithm, isoweek1monday / isoWeekNum below);
* the month grid construction render_month (a Python dict keyed by ISO week
  number, modelled by an insertion-ordered association list);
* the calendar drawing loop draw_calendar (cell formatting, headers, rows);
* the RunningAverage tracker (floats modelled as exact rationals);
* the EPD backend: persisted-average loading, the display/present event
  order, and the red/blue channel to red/black plane encoding;
* canvas sizing with the portrait flag, and the clock time strings.
-/

namespace EinkClock

/-! ## Calendar arithmetic -/

/-- Gregorian leap-year test. -/
def isLeap (y : ℕ) : Bool :=
  (y % 4 == 0 && y % 100 != 0) || y % 400 == 0

/-- Number of days of year `y`. -/
def daysInYear (y : ℕ) : ℕ :=
  if isLeap y then 366 else 365

/-- Number of days of month `m` (1–12) of year `y`. -/
def daysInMonth (y m : ℕ) : ℕ :=
  if m = 2 then (if isLeap y then 29 else 28)
  else if m = 4 ∨ m = 6 ∨ m = 9 ∨ m = 11 then 30
  else 31

/-- Number of days of year `y` that precede the first day of month `m`. -/
def daysBeforeMonth (y m : ℕ) : ℕ :=
  let leapDay : ℕ := if isLeap y then 1 else 0
  match m with
  | 1 => 0
  | 2 => 31
  | 3 => 59 + leapDay
  | 4 => 90 + leapDay
  | 5 => 120 + leapDay
  | 6 => 151 + leapDay
  | 7 => 181 + leapDay
  | 8 => 212 + leapDay
  | 9 => 243 + leapDay
  | 10 => 273 + leapDay
  | 11 => 304 + leapDay
  | _ => 334 + leapDay

/-- Number of days strictly before January 1 of year `y` (year 1 is the
first year; the proleptic Gregorian rata die of `y`-01-01 is this plus 1). -/
def daysBeforeYear (y : ℕ) : ℕ :=
  365 * (y - 1) + (y - 1) / 4 - (y - 1) / 100 + (y - 1) / 400

/-- Ordinal of the date `y-m-d` within its year (January 1 is 1). -/
def ordOfDate (y m d : ℕ) : ℕ :=
  daysBeforeMonth y m + d

/-- Proleptic Gregorian rata die of the date `y-m-d` (0001-01-01 is day 1,
a Monday). -/
def rataDie (y m d : ℕ) : ℕ :=
  daysBeforeYear y + ordOfDate y m d

/-- ISO weekday of the date `y-m-d`: 1 = Monday, …, 7 = Sunday. -/
def isoWeekday (y m d : ℕ) : ℕ :=
  (rataDie y m d - 1) % 7 + 1

/-- Rata die of the Monday starting ISO week 1 of year `y`.  This is the
algorithm used by the Python datetime/arrow ISO calendar that the source
function `iso_week_num` parses its result from. -/
def isoweek1monday (y : ℕ) : ℕ :=
  let firstday := daysBeforeYear y + 1
  let firstweekday := (firstday + 6) % 7
  let w1m := firstday - firstweekday
  if firstweekday > 3 then w1m + 7 else w1m

/-- ISO-8601 week number of the date `y-m-d`, as computed by the Python
datetime/arrow ISO calendar: the embedding of the source function
`iso_week_num` (clock.py lines 45–56), which extracts this number from the
date formatted with the ISO week token. -/
def isoWeekNum (y m d : ℕ) : ℕ :=
  let today := rataDie y m d
  if today < isoweek1monday y then
    (today - isoweek1monday (y - 1)) / 7 + 1
  else if 52 ≤ (today - isoweek1monday y) / 7 ∧ isoweek1monday (y + 1) ≤ today then
    1
  else
    (today - isoweek1monday y) / 7 + 1

/-- Modelled from the spec: the Thursday of the ISO week (Monday–Sunday)
containing `y-m-d`, returned as a pair of its year and its ordinal within
that year.  The spec defines ISO week numbering by: week 1 is the week
containing the year's first Thursday. -/
def weekThursday (y m d : ℕ) : ℕ × ℕ :=
  let ord := ordOfDate y m d
  let wd := isoWeekday y m d
  if ord + 4 < wd + 1 then
    (y - 1, ord + 4 + daysInYear (y - 1) - wd)
  else if daysInYear y < ord + 4 - wd then
    (y + 1, ord + 4 - wd - daysInYear y)
  else
    (y, ord + 4 - wd)

/-- Modelled from the spec: the ISO-8601 week number of `y-m-d` according to
the first-Thursday rule.  Week 1 is the week containing the year's first
Thursday, and Thursdays of consecutive weeks are 7 days apart, so the week
number of a date is the index (counting from 1) of its week's Thursday among
the Thursdays of that Thursday's year, namely the ceiling of that Thursday's
year-ordinal divided by 7. -/
def isoWeekNumSpec (y m d : ℕ) : ℕ :=
  ((weekThursday y m d).2 + 6) / 7

/-! ## Month grid: embedding of render_month (clock.py lines 59–77)

The Python function builds a dict keyed by ISO week number whose values are
7-element lists (Monday–Sunday) holding the day-of-month number, with the
empty string for cells that were never assigned.  Python dicts preserve
insertion order, so the dict is modelled by an insertion-ordered association
list, and the empty-string sentinel by `none`. -/

/-- One seven-cell week row, Monday first; `none` is an untouched (blank)
cell, the empty-string sentinel of the Python code. -/
def emptyWeekRow : List (Option ℕ) := List.replicate 7 none

/-- A month grid: association list from ISO week number to a week row, in
dict insertion order. -/
abbrev MonthGrid := List (ℕ × List (Option ℕ))

/-- Dict update step of render_month: create the week row on first sight of
the week number (preserving insertion order), then set the weekday cell. -/
def insertDay : MonthGrid → ℕ → ℕ → ℕ → MonthGrid
  | [], w, i, d => [(w, emptyWeekRow.set i (some d))]
  | (w₀, row₀) :: rest, w, i, d =>
    if w₀ = w then (w₀, row₀.set i (some d)) :: rest
    else (w₀, row₀) :: insertDay rest w i d

/-- Dict lookup on a month grid. -/
def lookupRow : MonthGrid → ℕ → Option (List (Option ℕ))
  | [], _ => none
  | (w₀, row₀) :: rest, w => if w₀ = w then some row₀ else lookupRow rest w

/-- Grid after processing the first `k` days of month `y-m` in day order,
exactly as the loop of render_month does. -/
def renderUpTo (y m k : ℕ) : MonthGrid :=
  (List.range k).foldl
    (fun g i => insertDay g (isoWeekNum y m (i + 1)) (isoWeekday y m (i + 1) - 1) (i + 1)) []

/-- Embedding of render_month: iterate over every day of the month in
order, filing each day under its ISO week number at its ISO weekday column. -/
def render_month (y m : ℕ) : MonthGrid :=
  renderUpTo y m (daysInMonth y m)

/-- The ISO week numbers of the first `k` days of month `y-m`, in day order. -/
def weeksUpTo (y m k : ℕ) : List ℕ :=
  (List.range k).map (fun i => isoWeekNum y m (i + 1))

/-- Dict key insertion: append a key only if it is not present yet. -/
def insertKey (ks : List ℕ) (w : ℕ) : List ℕ :=
  if w ∈ ks then ks else ks ++ [w]

/-- The distinct elements of a list in order of first appearance, the key
order of a Python dict fed that list of keys. -/
def firstOccurrences (l : List ℕ) : List ℕ :=
  l.foldl insertKey []

/-- The day among the first `k` days of month `y-m` that belongs to ISO week
`w` and ISO weekday `i + 1`, if any. -/
def findDay (y m k w i : ℕ) : Option ℕ :=
  ((List.range k).map (fun j => j + 1)).find?
    (fun d => isoWeekNum y m d == w && isoWeekday y m d == i + 1)

/-- The week row that the grid over the first `k` days of month `y-m` should
hold for week `w`: cell `i` carries the unique day of that week and weekday,
blank when there is none. -/
def expectedRow (y m k w : ℕ) : List (Option ℕ) :=
  (List.range 7).map (fun i => findDay y m k w i)

/-! ## Calendar drawing: embedding of Clock.draw_calendar (clock.py 152–202) -/

/-- Python format string of a day cell with width 2 (all drawn values are
below 100): right-aligned in a field of two characters. -/
def fmt2 (n : ℕ) : String :=
  if n < 10 then " " ++ toString n else toString n

/-- Cell rendering of the draw_calendar loop: a day number prints
right-aligned in width 2, and a blank cell prints the sentinel 99 the same
way (clock.py lines 188–192). -/
def cellStr : Option ℕ → String
  | some d => fmt2 d
  | none => fmt2 99

/-- The text fragments of one week row of the calendar. -/
def weekRowStrs (row : List (Option ℕ)) : List String :=
  row.map cellStr

/-- English month name, as the arrow format token MMMM produces. -/
def monthName (m : ℕ) : String :=
  match m with
  | 1 => "January" | 2 => "February" | 3 => "March" | 4 => "April"
  | 5 => "May" | 6 => "June" | 7 => "July" | 8 => "August"
  | 9 => "September" | 10 => "October" | 11 => "November" | _ => "December"

/-- One text-drawing command of the calendar view, tagged by which of the
three draw.text call sites of draw_calendar emitted it. -/
inductive DrawCmd where
  | monthHeader (s : String)
  | weekdayHeader (s : String)
  | weekRow (weeknum : ℕ) (cells : List String)
  deriving DecidableEq

/-- The draw commands emitted for one month by the body of the month loop
of draw_calendar: one month header, one weekday header, then one row per
entry of the render_month dict in its iteration order. -/
def monthBlock (y m : ℕ) : List DrawCmd :=
  DrawCmd.monthHeader (monthName m ++ " " ++ toString y) ::
  DrawCmd.weekdayHeader "Mo Tu We Th Fr Sa Su" ::
  (render_month y m).map (fun e => DrawCmd.weekRow e.1 (weekRowStrs e.2))

/-- The month one before `y-m`. -/
def prevMonth (y m : ℕ) : ℕ × ℕ :=
  if m = 1 then (y - 1, 12) else (y, m - 1)

/-- The month one after `y-m`. -/
def nextMonth (y m : ℕ) : ℕ × ℕ :=
  if m = 12 then (y + 1, 1) else (y, m + 1)

/-- The four months drawn by draw_calendar for a current month `y-m`: the
previous month, the current one and the next two. -/
def calendarMonths (y m : ℕ) : List (ℕ × ℕ) :=
  [prevMonth y m, (y, m), nextMonth y m, nextMonth (nextMonth y m).1 (nextMonth y m).2]

/-- Embedding of draw_calendar: the concatenated draw commands of the four
month blocks. -/
def draw_calendar (y m : ℕ) : List DrawCmd :=
  (calendarMonths y m).flatMap (fun ym => monthBlock ym.1 ym.2)

/-- Predicate picking out month-header commands. -/
def isMonthHeader : DrawCmd → Bool
  | .monthHeader _ => true
  | _ => false

/-! ## RunningAverage (clock.py lines 24–42)

Python floats are modelled as exact rationals; the samples of interest are
exact small values, and the algebraic claims concern the incremental-mean
algebra. -/

/-- State of the RunningAverage tracker: current mean and sample count. -/
structure RunningAverage where
  average : ℚ
  n : ℕ
  deriving DecidableEq

/-- The freshly constructed RunningAverage: average 0, count 0. -/
def RunningAverage.init : RunningAverage := ⟨0, 0⟩

/-- Embedding of RunningAverage.__call__: bump the count, then fold the new
value into the mean with the incremental formula of the source. -/
def RunningAverage.call (ra : RunningAverage) (newValue : ℚ) : RunningAverage :=
  let n := ra.n + 1
  ⟨(ra.average * ((n : ℚ) - 1) + newValue) / (n : ℚ), n⟩

/-- Feed a list of samples in order. -/
def feedAll (ra : RunningAverage) (l : List ℚ) : RunningAverage :=
  l.foldl RunningAverage.call ra

/-! ## EPD backend state handling (clock.py lines 209–259) -/

/-- Possible outcomes of reading the persisted update.pkl file. -/
inductive LoadResult where
  | ok (avg : RunningAverage)
  | fileNotFound
  | corrupt
  deriving DecidableEq

/-- Embedding of the persisted-average load in EPD_Clock.__init__ (clock.py
lines 227–230): the try block catches only FileNotFoundError and substitutes
a fresh RunningAverage; any other unpickling failure propagates out of the
constructor. -/
def loadUpdateAvg : LoadResult → Except String RunningAverage
  | .ok a => .ok a
  | .fileNotFound => .ok RunningAverage.init
  | .corrupt => .error "UnpicklingError"

/-- Externally visible events of EPD_Clock.display, in program order. -/
inductive EPDEvent where
  | timerStart
  | displayCall
  | timerStop
  | updateAvg
  | sleep
  | persistAvg
  deriving DecidableEq

/-- Embedding of the effect order of EPD_Clock.display (clock.py lines
250–259): start the timer, send both planes in the single epd.display call,
stop the timer, fold the elapsed time into the running average, put the
panel to sleep, and only then persist the average to update.pkl. -/
def epdDisplayTrace : List EPDEvent :=
  [.timerStart, .displayCall, .timerStop, .updateAvg, .sleep, .persistAvg]

/-! ## Plane encoding of EPD_Clock.display (clock.py lines 235–252)

A canvas is a rectangular raster of RGB pixels (rows of pixels).  The code
extracts the red channel, converts it to one bit with dithering disabled
(PIL thresholds at 128: a channel value of at least 128 becomes a set bit)
and rotates it 180 degrees to obtain the red plane, and does the same with
the blue channel for the black plane. -/

/-- One RGB pixel, channel values 0–255. -/
structure RGB where
  r : ℕ
  g : ℕ
  b : ℕ
  deriving DecidableEq

/-- PIL 1-bit conversion with dither disabled: hard threshold at 128. -/
def threshold1 (v : ℕ) : Bool := 128 ≤ v

/-- A canvas: rows of pixels. -/
abbrev Canvas := List (List RGB)

/-- Rotation by 180 degrees of a raster: reverse the rows and each row. -/
def rotate180 {α : Type} (p : List (List α)) : List (List α) :=
  (p.map List.reverse).reverse

/-- The red plane: red channel, thresholded to one bit, rotated 180°. -/
def redPlane (c : Canvas) : List (List Bool) :=
  rotate180 (c.map (fun row => row.map (fun px => threshold1 px.r)))

/-- The black plane: blue channel, thresholded to one bit, rotated 180°. -/
def blackPlane (c : Canvas) : List (List Bool) :=
  rotate180 (c.map (fun row => row.map (fun px => threshold1 px.b)))

/-- A solid canvas of the given size and color. -/
def uniformCanvas (w h : ℕ) (px : RGB) : Canvas :=
  List.replicate h (List.replicate w px)

/-- The PIL color RED. -/
def colRED : RGB := ⟨255, 0, 0⟩

/-- The PIL color BLUE. -/
def colBLUE : RGB := ⟨0, 0, 255⟩

/-- The PIL color WHITE, the canvas background. -/
def colWHITE : RGB := ⟨255, 255, 255⟩

/-- Every bit of a plane has value `v`. -/
def allBits (p : List (List Bool)) (v : Bool) : Prop :=
  ∀ row ∈ p, ∀ x ∈ row, x = v

instance (p : List (List Bool)) (v : Bool) : Decidable (allBits p v) := by
  unfold allBits
  infer_instance

/-! ## Canvas sizing of Clock.__init__ (clock.py lines 98–116) -/

/-- Split a character list at every occurrence of the separator, the Python
str.split with an explicit separator (empty fields preserved). -/
def splitChar (sep : Char) : List Char → List (List Char)
  | [] => [[]]
  | c :: rest =>
    let r := splitChar sep rest
    if c = sep then [] :: r
    else
      match r with
      | [] => [[c]]
      | h :: t => (c :: h) :: t

/-- Decimal value of one digit character. -/
def charDigit (c : Char) : Option ℕ :=
  if '0' ≤ c ∧ c ≤ '9' then some (c.toNat - Char.toNat '0') else none

/-- The Python int() applied to a field: the decimal value when the field is
a nonempty digit string, failure otherwise. -/
def digitsToNat (l : List Char) : Option ℕ :=
  if l.isEmpty then none
  else
    l.foldl
      (fun acc c =>
        match acc, charDigit c with
        | some a, some d => some (a * 10 + d)
        | _, _ => none)
      (some 0)

/-- Parse the configured size string of the form WxH, as
map(int, s.split(sep)) unpacked into a pair does. -/
def parseSize (s : String) : Option (ℕ × ℕ) :=
  match (splitChar 'x' s.toList).map digitsToNat with
  | [some w, some h] => some (w, h)
  | _ => none

/-- Effective canvas dimensions of Clock.__init__: take the explicit size
argument if given, otherwise the parsed configured size, then swap width and
height when portrait mode is requested. -/
def clockDims (sizeArg : Option (ℕ × ℕ)) (cfgSize : String) (portrait : Bool) :
    Option (ℕ × ℕ) :=
  (match sizeArg with
   | some wh => some wh
   | none => parseSize cfgSize).map
    (fun wh : ℕ × ℕ => if portrait then (wh.2, wh.1) else wh)

/-! ## Clock time strings of Clock.draw_time (clock.py lines 136–144) -/

/-- Zero-padded two-digit rendering, the Python format 02d for values
below 100. -/
def pad2 (n : ℕ) : String :=
  if n < 10 then "0" ++ toString n else toString n

/-- The red hour-tens fragment of the time display. -/
def hourTens (hour : ℕ) : String :=
  toString (hour / 10)

/-- The blue remainder fragment of the time display: hour units, a colon,
and the zero-padded minutes. -/
def timeRem (hour minute : ℕ) : String :=
  toString (hour % 10) ++ ":" ++ pad2 minute

/-! ## Arithmetic facts about the calendar embedding -/

lemma daysInYear_bounds (y : ℕ) : 365 ≤ daysInYear y ∧ daysInYear y ≤ 366 := by
  unfold daysInYear
  split <;> omega

lemma daysInMonth_le (y m : ℕ) : daysInMonth y m ≤ 31 := by
  unfold daysInMonth
  split_ifs <;> omega

lemma daysInMonth_pos (y m : ℕ) : 1 ≤ daysInMonth y m := by
  unfold daysInMonth
  split_ifs <;> omega

lemma daysBeforeYear_succ (y : ℕ) (hy : 1 ≤ y) :
    daysBeforeYear (y + 1) = daysBeforeYear y + daysInYear y := by
  obtain ⟨k, rfl⟩ : ∃ k, y = k + 1 := ⟨y - 1, by omega⟩
  simp only [daysBeforeYear, daysInYear, isLeap, Bool.or_eq_true, Bool.and_eq_true,
    beq_iff_eq, bne_iff_ne, ne_eq, Nat.add_sub_cancel]
  rw [Nat.succ_div, Nat.succ_div, Nat.succ_div]
  split_ifs <;> omega

lemma ordOfDate_le (y m d : ℕ) (hm1 : 1 ≤ m) (hm2 : m ≤ 12)
    (hd : d ≤ daysInMonth y m) :
    ordOfDate y m d ≤ daysInYear y := by
  simp only [ordOfDate, daysBeforeMonth, daysInMonth, daysInYear] at *
  interval_cases m <;> simp_all <;> split_ifs at * <;> omega

lemma isoweek1monday_facts (y : ℕ) :
    isoweek1monday y % 7 = 1 ∧ daysBeforeYear y ≤ isoweek1monday y + 2 ∧
      isoweek1monday y ≤ daysBeforeYear y + 4 := by
  simp only [isoweek1monday]
  split_ifs <;> omega

/-- The source ISO week computation agrees with the first-Thursday
characterization of ISO-8601 week numbers on every valid date. -/
lemma isoWeekNum_eq_spec (y m d : ℕ) (hy : 1 ≤ y) (hm1 : 1 ≤ m) (hm2 : m ≤ 12)
    (hd1 : 1 ≤ d) (hd2 : d ≤ daysInMonth y m) :
    isoWeekNum y m d = isoWeekNumSpec y m d := by
  have hord1 : 1 ≤ ordOfDate y m d := by
    simp only [ordOfDate]; omega
  have hord2 : ordOfDate y m d ≤ daysInYear y := ordOfDate_le y m d hm1 hm2 hd2
  have hdy0 := daysInYear_bounds (y - 1)
  have hdy1 := daysInYear_bounds y
  have hM0 := isoweek1monday_facts (y - 1)
  have hM1 := isoweek1monday_facts y
  have hM2 := isoweek1monday_facts (y + 1)
  have hsucc1 : daysBeforeYear (y + 1) = daysBeforeYear y + daysInYear y :=
    daysBeforeYear_succ y hy
  rcases Nat.lt_or_ge y 2 with hy2 | hy2
  · have hy1 : y = 1 := by omega
    subst hy1
    have h1 : daysBeforeYear 1 = 0 := by decide
    have h0 : daysBeforeYear 0 = 0 := by decide
    have hw1 : isoweek1monday 1 = 1 := by decide
    simp only [isoWeekNum, isoWeekNumSpec, weekThursday, isoWeekday, rataDie]
    split_ifs <;> omega
  · have hsucc0 : daysBeforeYear y = daysBeforeYear (y - 1) + daysInYear (y - 1) := by
      have h := daysBeforeYear_succ (y - 1) (by omega)
      have h' : y - 1 + 1 = y := by omega
      rw [h'] at h
      exact h
    simp only [isoWeekNum, isoWeekNumSpec, weekThursday, isoWeekday, rataDie]
    split_ifs <;> omega

/-- Within one month, the pair of ISO week number and ISO weekday determines
the day: two distinct days of a month never share both. -/
lemma week_weekday_inj (y m d d' : ℕ) (hy : 1 ≤ y) (hm1 : 1 ≤ m) (hm2 : m ≤ 12)
    (hd1 : 1 ≤ d) (hd2 : d ≤ daysInMonth y m)
    (hd1' : 1 ≤ d') (hd2' : d' ≤ daysInMonth y m)
    (hw : isoWeekNum y m d = isoWeekNum y m d')
    (hwd : isoWeekday y m d = isoWeekday y m d') : d = d' := by
  rw [isoWeekNum_eq_spec y m d hy hm1 hm2 hd1 hd2,
    isoWeekNum_eq_spec y m d' hy hm1 hm2 hd1' hd2'] at hw
  have hmon := daysInMonth_le y m
  have hdy0 := daysInYear_bounds (y - 1)
  have hdy1 := daysInYear_bounds y
  have hord2 : ordOfDate y m d ≤ daysInYear y := ordOfDate_le y m d hm1 hm2 hd2
  have hord2' : ordOfDate y m d' ≤ daysInYear y := ordOfDate_le y m d' hm1 hm2 hd2'
  simp only [isoWeekNumSpec, weekThursday, isoWeekday, rataDie, ordOfDate] at hw hwd hord2 hord2' ⊢
  split_ifs at hw <;> omega

/-! ## Association-list facts about the month grid -/

lemma lookupRow_insertDay (g : MonthGrid) (w i d w' : ℕ) :
    lookupRow (insertDay g w i d) w' =
      if w' = w then some ((((lookupRow g w).getD emptyWeekRow)).set i (some d))
      else lookupRow g w' := by
  induction g with
  | nil =>
    simp only [insertDay, lookupRow, Option.getD_none]
    split_ifs with h h' <;> first | rfl | (exfalso; omega)
  | cons e rest ih =>
    obtain ⟨w₀, row₀⟩ := e
    by_cases h : w₀ = w
    · subst h
      simp only [insertDay, if_pos rfl, lookupRow, Option.getD_some]
      split_ifs with h' h'' <;> first | rfl | (exfalso; omega)
    · simp only [insertDay, if_neg h, lookupRow, if_neg h, ih]
      split_ifs with h' h'' <;> first | rfl | (exfalso; omega)

lemma keys_insertDay (g : MonthGrid) (w i d : ℕ) :
    (insertDay g w i d).map Prod.fst = insertKey (g.map Prod.fst) w := by
  induction g with
  | nil => simp [insertDay, insertKey]
  | cons e rest ih =>
    obtain ⟨w₀, row₀⟩ := e
    by_cases h : w₀ = w
    · subst h
      simp [insertDay, insertKey]
    · simp only [insertDay, if_neg h, List.map_cons, ih, insertKey]
      by_cases h' : w ∈ List.map Prod.fst rest
      · rw [if_pos h', if_pos (List.mem_cons.mpr (Or.inr h'))]
      · have hnot : w ∉ w₀ :: List.map Prod.fst rest := by
          intro hh
          rcases List.mem_cons.mp hh with he | hm
          · exact h he.symm
          · exact h' hm
        rw [if_neg h', if_neg hnot, List.cons_append]

lemma mem_of_lookupRow (g : MonthGrid) (w : ℕ) (row : List (Option ℕ))
    (h : lookupRow g w = some row) : (w, row) ∈ g := by
  induction g with
  | nil => simp [lookupRow] at h
  | cons e rest ih =>
    obtain ⟨w₀, row₀⟩ := e
    simp only [lookupRow] at h
    split_ifs at h with h₀
    · subst h₀
      simp_all
    · simp [ih h]

lemma lookupRow_isSome_iff (g : MonthGrid) (w : ℕ) :
    (lookupRow g w).isSome ↔ w ∈ g.map Prod.fst := by
  induction g with
  | nil => simp [lookupRow]
  | cons e rest ih =>
    obtain ⟨w₀, row₀⟩ := e
    simp only [lookupRow, List.map_cons, List.mem_cons]
    split_ifs with h
    · simp [h.symm]
    · rw [ih]
      tauto

lemma lookupRow_of_mem (g : MonthGrid) (w : ℕ) (row : List (Option ℕ))
    (hnd : (g.map Prod.fst).Nodup) (h : (w, row) ∈ g) :
    lookupRow g w = some row := by
  induction g with
  | nil => simp at h
  | cons e rest ih =>
    obtain ⟨w₀, row₀⟩ := e
    simp only [List.map_cons, List.nodup_cons] at hnd
    rcases List.mem_cons.mp h with h₁ | h₁
    · rw [Prod.ext_iff] at h₁
      obtain ⟨h₂, h₃⟩ := h₁
      simp only [lookupRow, if_pos h₂.symm]
      exact congrArg some h₃.symm
    · have hw : w₀ ≠ w := by
        rintro rfl
        exact hnd.1 (List.mem_map.mpr ⟨(w₀, row), h₁, rfl⟩)
      simp only [lookupRow, if_neg hw]
      exact ih hnd.2 h₁

lemma mem_insertKey (ks : List ℕ) (w x : ℕ) :
    x ∈ insertKey ks w ↔ x ∈ ks ∨ x = w := by
  unfold insertKey
  split_ifs with h
  · constructor
    · exact fun hh => Or.inl hh
    · rintro (hh | rfl)
      · exact hh
      · exact h
  · simp [List.mem_append]

lemma nodup_insertKey (ks : List ℕ) (w : ℕ) (h : ks.Nodup) :
    (insertKey ks w).Nodup := by
  unfold insertKey
  split_ifs with hw
  · exact h
  · simpa [List.nodup_append, hw]

lemma foldl_insertKey_mem (l : List ℕ) :
    ∀ ks x, (x ∈ l.foldl insertKey ks ↔ x ∈ ks ∨ x ∈ l) := by
  induction l with
  | nil => simp
  | cons a t ih =>
    intro ks x
    simp only [List.foldl_cons, ih, mem_insertKey, List.mem_cons]
    tauto

lemma foldl_insertKey_nodup (l : List ℕ) :
    ∀ ks, ks.Nodup → (l.foldl insertKey ks).Nodup := by
  induction l with
  | nil => simp
  | cons a t ih =>
    intro ks h
    exact ih _ (nodup_insertKey ks a h)

lemma mem_firstOccurrences (l : List ℕ) (x : ℕ) :
    x ∈ firstOccurrences l ↔ x ∈ l := by
  simp [firstOccurrences, foldl_insertKey_mem]

lemma nodup_firstOccurrences (l : List ℕ) : (firstOccurrences l).Nodup :=
  foldl_insertKey_nodup l [] List.nodup_nil

/-! ## The month grid built by render_month -/

lemma isoWeekday_bounds (y m d : ℕ) : 1 ≤ isoWeekday y m d ∧ isoWeekday y m d ≤ 7 := by
  unfold isoWeekday
  omega

lemma mem_weeksUpTo (y m k w : ℕ) :
    w ∈ weeksUpTo y m k ↔ ∃ d, 1 ≤ d ∧ d ≤ k ∧ isoWeekNum y m d = w := by
  simp only [weeksUpTo, List.mem_map, List.mem_range]
  constructor
  · rintro ⟨i, hi, rfl⟩
    exact ⟨i + 1, by omega, by omega, rfl⟩
  · rintro ⟨d, h1, h2, rfl⟩
    refine ⟨d - 1, by omega, ?_⟩
    rw [Nat.sub_add_cancel h1]

lemma weeksUpTo_succ (y m k : ℕ) :
    weeksUpTo y m (k + 1) = weeksUpTo y m k ++ [isoWeekNum y m (k + 1)] := by
  simp [weeksUpTo, List.range_succ]

lemma renderUpTo_succ (y m k : ℕ) :
    renderUpTo y m (k + 1) =
      insertDay (renderUpTo y m k) (isoWeekNum y m (k + 1))
        (isoWeekday y m (k + 1) - 1) (k + 1) := by
  simp [renderUpTo, List.range_succ]

lemma findDay_succ (y m k w i : ℕ) :
    findDay y m (k + 1) w i =
      (findDay y m k w i).or
        (if isoWeekNum y m (k + 1) == w && isoWeekday y m (k + 1) == i + 1
         then some (k + 1) else none) := by
  rw [findDay, List.range_succ, List.map_append, List.find?_append, findDay]
  congr 1
  simp only [List.map_cons, List.map_nil, List.find?]
  rcases hc : (isoWeekNum y m (k + 1) == w && isoWeekday y m (k + 1) == i + 1) with _ | _ <;>
    simp [hc]

lemma expectedRow_eq_empty (y m k w : ℕ) (hnw : w ∉ weeksUpTo y m k) :
    expectedRow y m k w = emptyWeekRow := by
  have hall : ∀ i, findDay y m k w i = none := by
    intro i
    rw [findDay, List.find?_eq_none]
    intro d hd
    simp only [List.mem_map, List.mem_range] at hd
    obtain ⟨j, hj, rfl⟩ := hd
    simp only [Bool.and_eq_true, beq_iff_eq, not_and]
    intro hw _
    exact absurd ((mem_weeksUpTo y m k w).mpr ⟨j + 1, by omega, by omega, hw⟩) hnw
  simp [expectedRow, emptyWeekRow, hall, List.map_const]

lemma expectedRow_succ_ne (y m k w : ℕ) (hne : isoWeekNum y m (k + 1) ≠ w) :
    expectedRow y m (k + 1) w = expectedRow y m k w := by
  unfold expectedRow
  apply List.map_congr_left
  intro i _
  rw [findDay_succ]
  simp [hne]

lemma findDay_self_none (y m k : ℕ) (hy : 1 ≤ y) (hm1 : 1 ≤ m) (hm2 : m ≤ 12)
    (hk : k + 1 ≤ daysInMonth y m) :
    findDay y m k (isoWeekNum y m (k + 1)) (isoWeekday y m (k + 1) - 1) = none := by
  rw [findDay, List.find?_eq_none]
  intro d hd
  simp only [List.mem_map, List.mem_range] at hd
  obtain ⟨j, hj, rfl⟩ := hd
  simp only [Bool.and_eq_true, beq_iff_eq, not_and]
  intro hw hwd
  have hb := isoWeekday_bounds y m (k + 1)
  have : j + 1 = k + 1 := by
    refine week_weekday_inj y m (j + 1) (k + 1) hy hm1 hm2 (by omega) (by omega)
      (by omega) hk hw ?_
    omega
  omega

lemma expectedRow_length (y m k w : ℕ) : (expectedRow y m k w).length = 7 := by
  simp [expectedRow]

lemma expectedRow_succ_eq (y m k : ℕ) (hy : 1 ≤ y) (hm1 : 1 ≤ m) (hm2 : m ≤ 12)
    (hk : k + 1 ≤ daysInMonth y m) :
    expectedRow y m (k + 1) (isoWeekNum y m (k + 1)) =
      (expectedRow y m k (isoWeekNum y m (k + 1))).set
        (isoWeekday y m (k + 1) - 1) (some (k + 1)) := by
  have hb := isoWeekday_bounds y m (k + 1)
  apply List.ext_get?_iff.mpr
  intro n
  rw [List.get?_set]
  by_cases hn : n < 7
  · rw [expectedRow, expectedRow, List.get?_map, List.get?_map, List.get?_range hn]
    simp only [Option.map_some']
    by_cases hwn : isoWeekday y m (k + 1) - 1 = n
    · rw [if_pos hwn]
      have hfd : findDay y m (k + 1) (isoWeekNum y m (k + 1)) n = some (k + 1) := by
        rw [← hwn, findDay_succ, findDay_self_none y m k hy hm1 hm2 hk]
        have hcond : (isoWeekNum y m (k + 1) == isoWeekNum y m (k + 1) &&
            isoWeekday y m (k + 1) == (isoWeekday y m (k + 1) - 1) + 1) = true := by
          simp only [Bool.and_eq_true, beq_iff_eq]
          exact ⟨by trivial, by omega⟩
        rw [hcond]
        rfl
      rw [hfd]
      simp
    · rw [if_neg hwn]
      have hfd : findDay y m (k + 1) (isoWeekNum y m (k + 1)) n =
          findDay y m k (isoWeekNum y m (k + 1)) n := by
        rw [findDay_succ]
        have hcond : (isoWeekNum y m (k + 1) == isoWeekNum y m (k + 1) &&
            isoWeekday y m (k + 1) == n + 1) = false := by
          simp only [Bool.and_eq_false_iff, beq_eq_false_iff_ne, ne_eq]
          right
          omega
        rw [hcond]
        simp
      rw [hfd]
  · have h1 : (expectedRow y m (k + 1) (isoWeekNum y m (k + 1))).get? n = none := by
      rw [List.get?_eq_none]
      rw [expectedRow_length]
      omega
    have h2 : (expectedRow y m k (isoWeekNum y m (k + 1))).get? n = none := by
      rw [List.get?_eq_none]
      rw [expectedRow_length]
      omega
    rw [h1, if_neg (by omega : ¬ isoWeekday y m (k + 1) - 1 = n), h2]

/-- Full characterization of the grid state after the first `k` days: the
keys are the week numbers in order of first appearance, and each week maps to
its expected row. -/
lemma renderUpTo_invariant (y m : ℕ) (hy : 1 ≤ y) (hm1 : 1 ≤ m) (hm2 : m ≤ 12) :
    ∀ k, k ≤ daysInMonth y m →
      ((renderUpTo y m k).map Prod.fst = firstOccurrences (weeksUpTo y m k) ∧
       ∀ w, lookupRow (renderUpTo y m k) w =
         if w ∈ weeksUpTo y m k then some (expectedRow y m k w) else none) := by
  intro k
  induction k with
  | zero =>
    intro _
    constructor
    · simp [renderUpTo, weeksUpTo, firstOccurrences]
    · intro w
      simp [renderUpTo, weeksUpTo, lookupRow]
  | succ k ih =>
    intro hk
    obtain ⟨ihk, ihl⟩ := ih (by omega)
    constructor
    · rw [renderUpTo_succ, keys_insertDay, ihk, weeksUpTo_succ]
      simp [firstOccurrences, List.foldl_append]
    · intro w
      rw [renderUpTo_succ, lookupRow_insertDay]
      by_cases hw : w = isoWeekNum y m (k + 1)
      · have hmem : w ∈ weeksUpTo y m (k + 1) :=
          (mem_weeksUpTo y m (k + 1) w).mpr ⟨k + 1, by omega, by omega, hw.symm⟩
        rw [if_pos hw, if_pos hmem, hw, ihl (isoWeekNum y m (k + 1))]
        by_cases hold : isoWeekNum y m (k + 1) ∈ weeksUpTo y m k
        · rw [if_pos hold]
          simp only [Option.getD_some]
          rw [expectedRow_succ_eq y m k hy hm1 hm2 hk]
        · rw [if_neg hold]
          simp only [Option.getD_none]
          rw [expectedRow_succ_eq y m k hy hm1 hm2 hk,
            expectedRow_eq_empty y m k _ hold]
      · have hmm : w ∈ weeksUpTo y m (k + 1) ↔ w ∈ weeksUpTo y m k := by
          rw [weeksUpTo_succ]
          simp only [List.mem_append, List.mem_singleton]
          constructor
          · rintro (hh | hh)
            · exact hh
            · exact absurd hh hw
          · exact fun hh => Or.inl hh
        rw [if_neg hw, ihl w]
        by_cases hold : w ∈ weeksUpTo y m k
        · rw [if_pos hold, if_pos (hmm.mpr hold),
            expectedRow_succ_ne y m k w (fun he => hw he.symm)]
        · rw [if_neg hold, if_neg (fun hh => hold (hmm.mp hh))]

lemma render_month_keys (y m : ℕ) (hy : 1 ≤ y) (hm1 : 1 ≤ m) (hm2 : m ≤ 12) :
    (render_month y m).map Prod.fst =
      firstOccurrences (weeksUpTo y m (daysInMonth y m)) :=
  (renderUpTo_invariant y m hy hm1 hm2 (daysInMonth y m) le_rfl).1

lemma render_month_lookup (y m : ℕ) (hy : 1 ≤ y) (hm1 : 1 ≤ m) (hm2 : m ≤ 12) (w : ℕ) :
    lookupRow (render_month y m) w =
      if w ∈ weeksUpTo y m (daysInMonth y m)
      then some (expectedRow y m (daysInMonth y m) w) else none :=
  (renderUpTo_invariant y m hy hm1 hm2 (daysInMonth y m) le_rfl).2 w

lemma render_month_keys_nodup (y m : ℕ) (hy : 1 ≤ y) (hm1 : 1 ≤ m) (hm2 : m ≤ 12) :
    ((render_month y m).map Prod.fst).Nodup := by
  rw [render_month_keys y m hy hm1 hm2]
  exact nodup_firstOccurrences _

lemma render_month_mem_keys (y m : ℕ) (hy : 1 ≤ y) (hm1 : 1 ≤ m) (hm2 : m ≤ 12) (w : ℕ) :
    w ∈ (render_month y m).map Prod.fst ↔
      ∃ d, 1 ≤ d ∧ d ≤ daysInMonth y m ∧ isoWeekNum y m d = w := by
  rw [render_month_keys y m hy hm1 hm2, mem_firstOccurrences, mem_weeksUpTo]

lemma render_month_cell_sound (y m : ℕ) (hy : 1 ≤ y) (hm1 : 1 ≤ m) (hm2 : m ≤ 12)
    (w : ℕ) (row : List (Option ℕ)) (i d : ℕ)
    (hmem : (w, row) ∈ render_month y m) (hcell : row.get? i = some (some d)) :
    1 ≤ d ∧ d ≤ daysInMonth y m ∧ isoWeekNum y m d = w ∧ isoWeekday y m d = i + 1 := by
  have hlk := lookupRow_of_mem (render_month y m) w row
    (render_month_keys_nodup y m hy hm1 hm2) hmem
  rw [render_month_lookup y m hy hm1 hm2 w] at hlk
  split_ifs at hlk with hwk
  · have hrow : row = expectedRow y m (daysInMonth y m) w := (Option.some.inj hlk).symm
    subst hrow
    have hi : i < 7 := by
      by_contra hge
      rw [List.get?_eq_none.mpr (by rw [expectedRow_length]; omega)] at hcell
      cases hcell
    rw [expectedRow, List.get?_map, List.get?_range hi, Option.map_some'] at hcell
    have hfd : findDay y m (daysInMonth y m) w i = some d := Option.some.inj hcell
    have hp := List.find?_some hfd
    have hmm := List.mem_of_find?_eq_some hfd
    simp only [Bool.and_eq_true, beq_iff_eq] at hp
    simp only [List.mem_map, List.mem_range] at hmm
    obtain ⟨j, hj, rfl⟩ := hmm
    exact ⟨by omega, by omega, hp.1, hp.2⟩

lemma find?_eq_some_of_unique {α : Type} (l : List α) (p : α → Bool) (a : α)
    (ha : a ∈ l) (hpa : p a = true) (huniq : ∀ x ∈ l, p x = true → x = a) :
    l.find? p = some a := by
  induction l with
  | nil => cases ha
  | cons b t ih =>
    rw [List.find?_cons]
    rcases hb : p b with _ | _
    · have hat : a ∈ t := by
        rcases List.mem_cons.mp ha with he | h
        · subst he
          rw [hpa] at hb
          cases hb
        · exact h
      exact ih hat (fun x hx hp => huniq x (List.mem_cons_of_mem b hx) hp)
    · exact congrArg some (huniq b (List.mem_cons_self b t) hb)

lemma render_month_cell_complete (y m : ℕ) (hy : 1 ≤ y) (hm1 : 1 ≤ m) (hm2 : m ≤ 12)
    (d : ℕ) (hd1 : 1 ≤ d) (hd2 : d ≤ daysInMonth y m) :
    ∃ row, (isoWeekNum y m d, row) ∈ render_month y m ∧
      row.get? (isoWeekday y m d - 1) = some (some d) := by
  have hb := isoWeekday_bounds y m d
  have hwk : isoWeekNum y m d ∈ weeksUpTo y m (daysInMonth y m) :=
    (mem_weeksUpTo y m (daysInMonth y m) (isoWeekNum y m d)).mpr ⟨d, hd1, hd2, rfl⟩
  have hlk := render_month_lookup y m hy hm1 hm2 (isoWeekNum y m d)
  rw [if_pos hwk] at hlk
  refine ⟨expectedRow y m (daysInMonth y m) (isoWeekNum y m d),
    mem_of_lookupRow _ _ _ hlk, ?_⟩
  have hi : isoWeekday y m d - 1 < 7 := by omega
  rw [expectedRow, List.get?_map, List.get?_range hi, Option.map_some']
  have hfd : findDay y m (daysInMonth y m) (isoWeekNum y m d) (isoWeekday y m d - 1) =
      some d := by
    apply find?_eq_some_of_unique
    · simp only [List.mem_map, List.mem_range]
      exact ⟨d - 1, by omega, by omega⟩
    · simp only [Bool.and_eq_true, beq_iff_eq]
      exact ⟨by trivial, by omega⟩
    · intro x hx hp
      simp only [List.mem_map, List.mem_range] at hx
      obtain ⟨j, hj, rfl⟩ := hx
      simp only [Bool.and_eq_true, beq_iff_eq] at hp
      exact week_weekday_inj y m (j + 1) d hy hm1 hm2 (by omega) (by omega) hd1 hd2
        hp.1 (by omega)
  rw [hfd]

/-- The elements of a list of week numbers, deduplicated in dict order, are
listed ascending by position of first appearance. -/
lemma firstOccurrences_sorted (l : List ℕ) :
    (firstOccurrences l).Pairwise (fun a b => l.indexOf a < l.indexOf b) := by
  induction l using List.reverseRecOn with
  | nil => simp [firstOccurrences]
  | append_singleton t a ih =>
    have hfo : firstOccurrences (t ++ [a]) = insertKey (firstOccurrences t) a := by
      rw [firstOccurrences, List.foldl_append]
      rfl
    rw [hfo]
    have htransfer : (firstOccurrences t).Pairwise
        (fun x y => (t ++ [a]).indexOf x < (t ++ [a]).indexOf y) := by
      refine ih.imp_of_mem ?_
      intro x y hx hy hlt
      rw [List.indexOf_append_of_mem ((mem_firstOccurrences t x).mp hx),
        List.indexOf_append_of_mem ((mem_firstOccurrences t y).mp hy)]
      exact hlt
    unfold insertKey
    split_ifs with hmem
    · exact htransfer
    · rw [List.pairwise_append]
      refine ⟨htransfer, List.pairwise_singleton _ a, ?_⟩
      intro x hx b hb
      rw [List.mem_singleton] at hb
      rw [hb]
      have hxt : x ∈ t := (mem_firstOccurrences t x).mp hx
      have hat : a ∉ t := fun h => hmem ((mem_firstOccurrences t a).mpr h)
      rw [List.indexOf_append_of_mem hxt, List.indexOf_append_of_not_mem hat,
        List.indexOf_cons_self]
      have := List.indexOf_lt_length.mpr hxt
      omega

lemma monthBlock_one_header (y m : ℕ) :
    ((monthBlock y m).filter isMonthHeader).length = 1 := by
  simp only [monthBlock, List.filter_cons, isMonthHeader]
  rw [List.filter_map]
  simp [Function.comp, isMonthHeader]

/-! ## RunningAverage algebra -/

lemma call_mul_n (ra : RunningAverage) (x : ℚ) :
    (ra.call x).average * (((ra.call x).n : ℚ)) = ra.average * ra.n + x := by
  have hne : ((ra.n : ℚ) + 1) ≠ 0 := by positivity
  simp only [RunningAverage.call]
  push_cast
  field_simp

lemma call_n (ra : RunningAverage) (x : ℚ) : (ra.call x).n = ra.n + 1 := rfl

lemma feedAll_n_sum (l : List ℚ) :
    ∀ ra : RunningAverage, (feedAll ra l).n = ra.n + l.length ∧
      (feedAll ra l).average * ((ra.n : ℚ) + (l.length : ℚ)) =
        ra.average * (ra.n : ℚ) + l.sum := by
  induction l with
  | nil =>
    intro ra
    simp [feedAll]
  | cons x t ih =>
    intro ra
    obtain ⟨h1, h2⟩ := ih (ra.call x)
    constructor
    · simp only [feedAll, List.foldl_cons] at h1 ⊢
      rw [h1, call_n]
      simp [List.length_cons]
      omega
    · simp only [feedAll, List.foldl_cons] at h2 ⊢
      rw [call_n] at h2
      have hcast : ((ra.n : ℚ) + ((x :: t).length : ℚ)) = (((ra.n + 1 : ℕ) : ℚ) + (t.length : ℚ)) := by
        push_cast [List.length_cons]
        ring
      rw [hcast, h2]
      have hc := call_mul_n ra x
      rw [call_n] at hc
      rw [hc]
      simp [List.sum_cons]
      ring

lemma feedAll_init (l : List ℚ) :
    (feedAll RunningAverage.init l).n = l.length ∧
    (feedAll RunningAverage.init l).average * (l.length : ℚ) = l.sum := by
  have h := feedAll_n_sum l RunningAverage.init
  simpa [RunningAverage.init] using h

lemma feedAll_init_average (l : List ℚ) (hl : l ≠ []) :
    (feedAll RunningAverage.init l).average = l.sum / (l.length : ℚ) := by
  obtain ⟨h1, h2⟩ := feedAll_init l
  have hlen : ((l.length : ℕ) : ℚ) ≠ 0 := by
    have := List.length_pos.mpr hl
    exact_mod_cast Nat.pos_iff_ne_zero.mp this
  rw [eq_div_iff hlen]
  exact h2

/-! ## Clock strings and planes -/

lemma pad2_split (h : ℕ) (hlt : h < 24) :
    toString (h / 10) ++ toString (h % 10) = pad2 h := by
  interval_cases h <;> rfl

lemma hourTens_length (h : ℕ) (hlt : h < 24) : (hourTens h).length = 1 := by
  interval_cases h <;> rfl

lemma plane_uniform_red (w h : ℕ) (px : RGB) :
    redPlane (uniformCanvas w h px) =
      List.replicate h (List.replicate w (threshold1 px.r)) := by
  simp [redPlane, uniformCanvas, rotate180, List.map_replicate, List.reverse_replicate]

lemma plane_uniform_black (w h : ℕ) (px : RGB) :
    blackPlane (uniformCanvas w h px) =
      List.replicate h (List.replicate w (threshold1 px.b)) := by
  simp [blackPlane, uniformCanvas, rotate180, List.map_replicate, List.reverse_replicate]

lemma allBits_replicate (a b : ℕ) (v : Bool) :
    allBits (List.replicate a (List.replicate b v)) v := by
  intro row hrow x hx
  rw [List.eq_of_mem_replicate hrow] at hx
  exact List.eq_of_mem_replicate hx

/-! ## Claim theorems -/

/-- C1: the claim says day cells outside the month are rendered blank and
the sentinel 99 is never drawn; the code does the opposite.  Evaluating the
code at December 2019: the week-48 row holds only December 1 (a Sunday), its
six earlier cells are blank, and the draw_calendar cell formatting renders
every blank cell as the literal string 99 — the sentinel is drawn as a
number, not translated to blank. -/
theorem claim_C1_blank_cells_drawn_as_99 :
    lookupRow (render_month 2019 12) 48 =
      some [none, none, none, none, none, none, some 1] ∧
    weekRowStrs [none, none, none, none, none, none, some 1] =
      ["99", "99", "99", "99", "99", "99", " 1"] ∧
    cellStr none = "99" := by
  decide

/-- C2 (counterexample): there is no reading of plane polarity under which
a fully red canvas gives red plane on / black plane off, a fully blue canvas
the reverse, and a fully white canvas both planes off: white saturates both
the red and the blue channel, so after thresholding both of its planes equal
the planes the claim calls entirely on. -/
theorem claim_C2_counterexample :
    ¬ ∃ onBit : Bool,
      allBits (redPlane (uniformCanvas 2 2 colRED)) onBit ∧
      allBits (blackPlane (uniformCanvas 2 2 colRED)) (!onBit) ∧
      allBits (redPlane (uniformCanvas 2 2 colBLUE)) (!onBit) ∧
      allBits (blackPlane (uniformCanvas 2 2 colBLUE)) onBit ∧
      allBits (redPlane (uniformCanvas 2 2 colWHITE)) (!onBit) ∧
      allBits (blackPlane (uniformCanvas 2 2 colWHITE)) (!onBit) := by
  decide

/-- C2 (amended): with a plane bit counted as on when the channel value is
at or above the hard threshold, a fully red canvas yields a red plane
entirely on and a black plane entirely off, a fully blue canvas the reverse,
and a fully white canvas yields both planes entirely ON (not off), since
white saturates both channels. -/
theorem claim_C2_plane_encoding (w h : ℕ) :
    allBits (redPlane (uniformCanvas w h colRED)) true ∧
    allBits (blackPlane (uniformCanvas w h colRED)) false ∧
    allBits (redPlane (uniformCanvas w h colBLUE)) false ∧
    allBits (blackPlane (uniformCanvas w h colBLUE)) true ∧
    allBits (redPlane (uniformCanvas w h colWHITE)) true ∧
    allBits (blackPlane (uniformCanvas w h colWHITE)) true := by
  refine ⟨?_, ?_, ?_, ?_, ?_, ?_⟩
  · rw [plane_uniform_red, show threshold1 colRED.r = true by decide]
    exact allBits_replicate h w true
  · rw [plane_uniform_black, show threshold1 colRED.b = false by decide]
    exact allBits_replicate h w false
  · rw [plane_uniform_red, show threshold1 colBLUE.r = false by decide]
    exact allBits_replicate h w false
  · rw [plane_uniform_black, show threshold1 colBLUE.b = true by decide]
    exact allBits_replicate h w true
  · rw [plane_uniform_red, show threshold1 colWHITE.r = true by decide]
    exact allBits_replicate h w true
  · rw [plane_uniform_black, show threshold1 colWHITE.b = true by decide]
    exact allBits_replicate h w true

/-- C3 (counterexample): the claim says every read error of the persisted
RunningAverage is recovered at construction; in the code only a missing file
is caught, and a corrupt (unpicklable) file makes the constructor fail. -/
theorem claim_C3_counterexample :
    ¬ ∃ ra : RunningAverage, loadUpdateAvg LoadResult.corrupt = Except.ok ra := by
  rintro ⟨ra, hra⟩
  simp [loadUpdateAvg] at hra

/-- C3 (amended): at Panel-backend construction a missing persisted-state
file is recovered locally by substituting the empty RunningAverage
(average 0, count 0), and an already-loaded value is used as is; an
unreadable or corrupt file is NOT recovered — the unpickling error
propagates out of the constructor. -/
theorem claim_C3_load_recovery :
    loadUpdateAvg LoadResult.fileNotFound = Except.ok RunningAverage.init ∧
    RunningAverage.init = ⟨0, 0⟩ ∧
    (∀ ra, loadUpdateAvg (LoadResult.ok ra) = Except.ok ra) ∧
    loadUpdateAvg LoadResult.corrupt = Except.error "UnpicklingError" :=
  ⟨rfl, rfl, fun _ => rfl, rfl⟩

/-- C4: RunningAverage.update folds one sample in by the incremental mean
formula, feeding the samples 10, 20, 30 in any order yields average exactly
20 with count 3, and in general the stored average is the arithmetic mean of
all recorded samples, independent of order. -/
theorem claim_C4_running_average :
    (∀ (ra : RunningAverage) (x : ℚ),
      ra.call x =
        ⟨(ra.average * (ra.n : ℚ) + x) / ((ra.n : ℚ) + 1), ra.n + 1⟩) ∧
    (∀ l : List ℚ, l.Perm [10, 20, 30] →
      feedAll RunningAverage.init l = ⟨20, 3⟩) ∧
    (∀ l : List ℚ, l ≠ [] →
      (feedAll RunningAverage.init l).average = l.sum / (l.length : ℚ) ∧
      (feedAll RunningAverage.init l).n = l.length) := by
  refine ⟨?_, ?_, ?_⟩
  · intro ra x
    simp only [RunningAverage.call]
    congr 1
    push_cast
    ring_nf
  · intro l hperm
    have hne : l ≠ [] := by
      intro he
      rw [he] at hperm
      exact (by decide : ([] : List ℚ) ≠ [10, 20, 30]) hperm.nil_eq
    have hsum : l.sum = 60 := by
      rw [hperm.sum_eq]
      norm_num
    have hlen : l.length = 3 := by
      rw [hperm.length_eq]
      rfl
    have h1 : (feedAll RunningAverage.init l).n = 3 := by
      rw [(feedAll_init l).1, hlen]
    have h2 : (feedAll RunningAverage.init l).average = 20 := by
      rw [feedAll_init_average l hne, hsum, hlen]
      norm_num
    have heta : feedAll RunningAverage.init l =
        ⟨(feedAll RunningAverage.init l).average, (feedAll RunningAverage.init l).n⟩ := rfl
    rw [heta, h1, h2]
  · intro l hne
    exact ⟨feedAll_init_average l hne, (feedAll_init l).1⟩

/-- C4 (witness): the theorem evaluated on the concrete sample lists. -/
theorem claim_C4_running_average_witness :
    feedAll RunningAverage.init [10, 20, 30] = ⟨20, 3⟩ ∧
    feedAll RunningAverage.init [30, 10, 20] = ⟨20, 3⟩ := by
  constructor
  · exact claim_C4_running_average.2.1 [10, 20, 30] (List.Perm.refl _)
  · exact claim_C4_running_average.2.1 [30, 10, 20] (by decide)

/-- C5: on every valid date the source ISO week computation agrees with the
ISO-8601 first-Thursday definition, and a December 31 that belongs to week 1
of the next ISO year is grouped by render_month under the week-1 row of that
December, at its weekday column. -/
theorem claim_C5_iso_week_number (y m d : ℕ) (hy : 1 ≤ y) (hm1 : 1 ≤ m)
    (hm2 : m ≤ 12) (hd1 : 1 ≤ d) (hd2 : d ≤ daysInMonth y m) :
    isoWeekNum y m d = isoWeekNumSpec y m d ∧
    (isoWeekNum y 12 31 = 1 →
      ∃ row, (1, row) ∈ render_month y 12 ∧
        row.get? (isoWeekday y 12 31 - 1) = some (some 31)) := by
  constructor
  · exact isoWeekNum_eq_spec y m d hy hm1 hm2 hd1 hd2
  · intro hw1
    have hdim : daysInMonth y 12 = 31 := by simp [daysInMonth]
    have h := render_month_cell_complete y 12 hy (by omega) (by omega) 31
      (by omega) (by omega)
    rw [hw1] at h
    exact h

/-- C5 (witness): the theorem evaluated at 2019-12-31, a date in ISO week 1
of 2020. -/
theorem claim_C5_iso_week_number_witness :
    isoWeekNum 2019 12 31 = isoWeekNumSpec 2019 12 31 ∧
    (isoWeekNum 2019 12 31 = 1 →
      ∃ row, (1, row) ∈ render_month 2019 12 ∧
        row.get? (isoWeekday 2019 12 31 - 1) = some (some 31)) :=
  claim_C5_iso_week_number 2019 12 31 (by decide) (by decide) (by decide)
    (by decide) (by decide)

/-- C6: for every month the calendar layout emits exactly one month header,
the grid has exactly one week row per distinct ISO week number occurring in
the month (keys are distinct and are exactly the weeks of the month's days),
every day of the month appears in a week row at the column of its ISO
weekday, and any cell holding a day value determines that day's week row and
weekday column uniquely — so no day value appears in two different weeks. -/
theorem claim_C6_month_layout (y m : ℕ) (hy : 1 ≤ y) (hm1 : 1 ≤ m) (hm2 : m ≤ 12) :
    ((monthBlock y m).filter isMonthHeader).length = 1 ∧
    ((render_month y m).map Prod.fst).Nodup ∧
    (∀ w, w ∈ (render_month y m).map Prod.fst ↔
      ∃ d, 1 ≤ d ∧ d ≤ daysInMonth y m ∧ isoWeekNum y m d = w) ∧
    (∀ d, 1 ≤ d → d ≤ daysInMonth y m →
      ∃ row, (isoWeekNum y m d, row) ∈ render_month y m ∧
        row.get? (isoWeekday y m d - 1) = some (some d)) ∧
    (∀ w row i d, (w, row) ∈ render_month y m → row.get? i = some (some d) →
      w = isoWeekNum y m d ∧ i = isoWeekday y m d - 1) := by
  refine ⟨monthBlock_one_header y m, render_month_keys_nodup y m hy hm1 hm2,
    render_month_mem_keys y m hy hm1 hm2, render_month_cell_complete y m hy hm1 hm2, ?_⟩
  intro w row i d hmem hcell
  obtain ⟨_, _, hw, hwd⟩ := render_month_cell_sound y m hy hm1 hm2 w row i d hmem hcell
  exact ⟨hw.symm, by omega⟩

/-- C6 (witness): the theorem evaluated at December 2019. -/
theorem claim_C6_month_layout_witness :
    ((monthBlock 2019 12).filter isMonthHeader).length = 1 ∧
    ((render_month 2019 12).map Prod.fst).Nodup :=
  ⟨(claim_C6_month_layout 2019 12 (by decide) (by decide) (by decide)).1,
   (claim_C6_month_layout 2019 12 (by decide) (by decide) (by decide)).2.1⟩

/-- C8: a month's week rows appear in the order the weeks first occur among
the month's days (the key list equals the distinct week numbers in order of
first appearance, which is sorted by position of first occurrence), and this
order need not be ascending by week number across an ISO year boundary: in
December 2019 the rows are weeks 48, 49, 50, 51, 52 and then 1. -/
theorem claim_C8_week_row_order (y m : ℕ) (hy : 1 ≤ y) (hm1 : 1 ≤ m) (hm2 : m ≤ 12) :
    ((render_month y m).map Prod.fst =
      firstOccurrences (weeksUpTo y m (daysInMonth y m))) ∧
    ((render_month y m).map Prod.fst).Pairwise
      (fun a b => (weeksUpTo y m (daysInMonth y m)).indexOf a <
        (weeksUpTo y m (daysInMonth y m)).indexOf b) ∧
    (render_month 2019 12).map Prod.fst = [48, 49, 50, 51, 52, 1] := by
  refine ⟨render_month_keys y m hy hm1 hm2, ?_, by decide⟩
  rw [render_month_keys y m hy hm1 hm2]
  exact firstOccurrences_sorted _

/-- C8 (witness): the theorem evaluated at December 2019. -/
theorem claim_C8_week_row_order_witness :
    (render_month 2019 12).map Prod.fst =
      firstOccurrences (weeksUpTo 2019 12 (daysInMonth 2019 12)) :=
  (claim_C8_week_row_order 2019 12 (by decide) (by decide) (by decide)).1

/-- C7 (counterexample): the claim orders the present step as display, time,
update and persist the average, then sleep; in the code the persist of
update.pkl happens after the device is put to sleep, not before. -/
theorem claim_C7_counterexample :
    EPDEvent.persistAvg ∈ epdDisplayTrace ∧
    EPDEvent.sleep ∈ epdDisplayTrace ∧
    ¬ epdDisplayTrace.indexOf EPDEvent.persistAvg <
        epdDisplayTrace.indexOf EPDEvent.sleep := by
  decide

/-- C7 (amended): the present step sends both planes to the device in one
display call, times that call, folds the measured latency into the
RunningAverage, puts the device to sleep, and only then persists the average
to the state file. -/
theorem claim_C7_display_order :
    epdDisplayTrace.count EPDEvent.displayCall = 1 ∧
    epdDisplayTrace.indexOf EPDEvent.timerStart <
      epdDisplayTrace.indexOf EPDEvent.displayCall ∧
    epdDisplayTrace.indexOf EPDEvent.displayCall <
      epdDisplayTrace.indexOf EPDEvent.timerStop ∧
    epdDisplayTrace.indexOf EPDEvent.timerStop <
      epdDisplayTrace.indexOf EPDEvent.updateAvg ∧
    epdDisplayTrace.indexOf EPDEvent.updateAvg <
      epdDisplayTrace.indexOf EPDEvent.sleep ∧
    epdDisplayTrace.indexOf EPDEvent.sleep <
      epdDisplayTrace.indexOf EPDEvent.persistAvg := by
  decide

/-- C9: for every requested canvas size, whether passed explicitly or parsed
from the configured WxH string, the constructed Clock's effective canvas
dimensions are height-by-width when portrait is requested and width-by-height
otherwise. -/
theorem claim_C9_canvas_dims (sizeArg : Option (ℕ × ℕ)) (cfgSize : String)
    (portrait : Bool) (w h : ℕ)
    (hsz : sizeArg = some (w, h) ∨ (sizeArg = none ∧ parseSize cfgSize = some (w, h))) :
    clockDims sizeArg cfgSize portrait = some (if portrait then (h, w) else (w, h)) := by
  rcases hsz with h1 | ⟨h1, h2⟩
  · subst h1
    simp [clockDims]
  · subst h1
    simp [clockDims, h2]

/-- C9 (witness): the theorem evaluated on the configured size 10x20 in
portrait mode. -/
theorem claim_C9_canvas_dims_witness :
    clockDims none "10x20" true = some (20, 10) := by
  have h := claim_C9_canvas_dims none "10x20" true 10 20 (Or.inr ⟨rfl, by decide⟩)
  simpa using h

/-- C10: for every hour and minute of the day, the red hour-tens fragment is
the single digit of hour divided by 10 (a leading 0 for hours below ten,
never empty), the blue remainder is the hour units digit, a colon and the
two-digit zero-padded minute, and their concatenation is the full zero-padded
HH:MM time. -/
theorem claim_C10_time_strings (hr mi : ℕ) (hhr : hr < 24) (hmi : mi < 60) :
    hourTens hr = toString (hr / 10) ∧
    (hourTens hr).length = 1 ∧
    timeRem hr mi = toString (hr % 10) ++ ":" ++ pad2 mi ∧
    hourTens hr ++ timeRem hr mi = pad2 hr ++ ":" ++ pad2 mi := by
  refine ⟨rfl, hourTens_length hr hhr, rfl, ?_⟩
  rw [hourTens, timeRem, ← pad2_split hr hhr]
  simp [String.append_assoc]

/-- C10 (witness): the theorem evaluated at 07:05. -/
theorem claim_C10_time_strings_witness :
    hourTens 7 ++ timeRem 7 5 = pad2 7 ++ ":" ++ pad2 5 :=
  (claim_C10_time_strings 7 5 (by decide) (by decide)).2.2.2

end EinkClock
